import Mathlib

/-!
Shallow embedding of `src/dedupe_external_contacts.py`: the contact record
model, the loader, grouping by email and by account, and the primary-selection
cascade (`choose_primary_contact`), together with proofs of the specified
properties of the selection engine.

Python object identity (the `c != primary` comparison on `ExternalContact`,
which has no `__eq__`) is modelled by a distinct `oid` tag attached to each
record built from an input row.  Python's `str.lower`/`str.upper`/`str.strip`
are modelled on the ASCII range, which covers the CSV vocabulary the script
consumes.
-/

namespace Dedupe

/-- ASCII single-character lowering, modelling `str.lower` per character. -/
def lowerChar (c : Char) : Char :=
  if 65 ≤ c.toNat ∧ c.toNat ≤ 90 then Char.ofNat (c.toNat + 32) else c

/-- ASCII single-character uppering, modelling `str.upper` per character. -/
def upperChar (c : Char) : Char :=
  if 97 ≤ c.toNat ∧ c.toNat ≤ 122 then Char.ofNat (c.toNat - 32) else c

/-- Models Python's `s.lower()`. -/
def pyLower (s : String) : String := String.mk (s.toList.map lowerChar)

/-- Models Python's `s.upper()`. -/
def pyUpper (s : String) : String := String.mk (s.toList.map upperChar)

/-- Python's whitespace set for `str.strip` (space, tab, LF, CR, VT, FF). -/
def isPySpace (c : Char) : Bool :=
  c == ' ' || c == '\t' || c == '\n' || c == '\r' || c.toNat == 11 || c.toNat == 12

/-- Models Python's `s.strip()`: whitespace removed from both ends. -/
def pyStrip (s : String) : String :=
  String.mk (((s.toList.dropWhile isPySpace).reverse.dropWhile isPySpace).reverse)

/-- `leadsWith pat l` is true when `pat` is an initial segment of `l`
(models Python's `str.startswith` on character lists). -/
def leadsWith : List Char → List Char → Bool
  | [], _ => true
  | _ :: _, [] => false
  | a :: as, b :: bs => a == b && leadsWith as bs

/-- `occursIn pat l` is true when `pat` occurs contiguously inside `l`
(models Python's `pat in s` substring test). -/
def occursIn (pat : List Char) : List Char → Bool
  | [] => pat.isEmpty
  | c :: cs => leadsWith pat (c :: cs) || occursIn pat cs

/-- `containsSub s pat` models Python's `pat in s` on strings. -/
def containsSub (s pat : String) : Bool :=
  occursIn pat.toList s.toList

/-- A CSV row as produced by `csv.DictReader`: an association list from
header name to cell value. -/
structure Row where
  fields : List (String × String)
deriving Repr, DecidableEq

/-- `r.get k d` models Python's `row.get(k, d)`. -/
def Row.get (r : Row) (k d : String) : String :=
  match r.fields.find? (fun p => p.1 == k) with
  | some p => p.2
  | none => d

/-- Value of an all-digit character list, most significant first. -/
def digitsVal (cs : List Char) : Nat :=
  cs.foldl (fun a c => a * 10 + (c.toNat - 48)) 0

/-- Parse a nonempty run of decimal digits, as `int` does after the sign. -/
def parseDigits? (cs : List Char) : Option Nat :=
  if cs.isEmpty then none
  else if cs.all Char.isDigit then some (digitsVal cs) else none

/-- Models Python's `int(s)` on an already-stripped string: an optional
sign followed by at least one decimal digit; anything else raises
(returns `none`). -/
def parseInt? (s : String) : Option Int :=
  match s.toList with
  | [] => none
  | c :: cs =>
    if c = '-' then (parseDigits? cs).map (fun n => -Int.ofNat n)
    else if c = '+' then (parseDigits? cs).map Int.ofNat
    else (parseDigits? (c :: cs)).map Int.ofNat

/-- One normalized contact row, mirroring `ExternalContact.__init__`.
The `oid` field models Python object identity: each record constructed
from an input row carries a distinct tag. -/
structure ExternalContact where
  email : String
  external_ref : String
  modified_by : String
  user_id : String
  type : String
  display_id : String
  devrev_account_id : String
  devrev_account_name : String
  updated_at : String
  cxp_user_id : String
  updated_by_bi : String
  linked_to_acc : String
  tickets : Int
  action : String
  strategy : String
  oid : Nat
deriving Repr, DecidableEq

/-- `ExternalContact.has_cxp_uid`: `externalRef` starts with `user_`. -/
def has_cxp_uid (c : ExternalContact) : Bool :=
  leadsWith "user_".toList c.external_ref.toList

/-- `ExternalContact.updated_by_bi_service`: the normalized flag equals `TRUE`. -/
def updated_by_bi_service (c : ExternalContact) : Bool :=
  c.updated_by_bi == "TRUE"

/-- `ExternalContact.__init__` on a row: every field stripped (and
lowered/uppered where the source does), `Tickets` parsed as an integer;
a row whose ticket field does not parse raises, modelled as `none`. -/
def mkContact (oid : Nat) (row : Row) : Option ExternalContact :=
  match parseInt? (pyStrip (row.get "Tickets" "0")) with
  | none => none
  | some t => some
      { email := pyLower (pyStrip (row.get "Email" ""))
        external_ref := pyStrip (row.get "External Ref" "")
        modified_by := pyStrip (row.get "Modified By Name" "")
        user_id := pyStrip (row.get "User ID" "")
        type := pyStrip (row.get "Type" "")
        display_id := pyStrip (row.get "Display ID" "")
        devrev_account_id := pyStrip (row.get "Devrev Account ID" "")
        devrev_account_name := pyStrip (row.get "Devrev Account Name" "")
        updated_at := pyStrip (row.get "Updated At" "")
        cxp_user_id := pyUpper (pyStrip (row.get "CXP User id" ""))
        updated_by_bi := pyUpper (pyStrip (row.get "Updated by BI service" ""))
        linked_to_acc := pyStrip (row.get "Linked to acc" "")
        tickets := t
        action := pyStrip (row.get "Action" "")
        strategy := pyStrip (row.get "Strategy" "")
        oid := oid }

/-- The row loop of `load_contacts`: rows whose normalized email contains
`test@` or `vg@` are skipped before construction; rows whose construction
raises are skipped (logged in the source).  `oid` numbers the rows so each
constructed record gets a distinct identity tag. -/
def loadAux : Nat → List Row → List ExternalContact
  | _, [] => []
  | oid, r :: rs =>
    let email := pyLower (pyStrip (r.get "Email" ""))
    if containsSub email "test@" || containsSub email "vg@" then
      loadAux (oid + 1) rs
    else
      match mkContact oid r with
      | some c => c :: loadAux (oid + 1) rs
      | none => loadAux (oid + 1) rs

/-- `load_contacts` on an already-parsed sequence of CSV rows. -/
def load_contacts (rows : List Row) : List ExternalContact :=
  loadAux 0 rows

/-- Append `c` to the group keyed by `key c`, creating the key at the end
when absent: the insertion-ordered `defaultdict(list)` pattern. -/
def addByKey (key : ExternalContact → String)
    (gs : List (String × List ExternalContact)) (c : ExternalContact) :
    List (String × List ExternalContact) :=
  match gs with
  | [] => [(key c, [c])]
  | (k, l) :: rest =>
    if k == key c then (k, l ++ [c]) :: rest else (k, l) :: addByKey key rest c

/-- Partition a list of contacts by a string key, preserving both key
insertion order and within-group order, as `defaultdict(list)` does. -/
def groupByKey (key : ExternalContact → String) (cs : List ExternalContact) :
    List (String × List ExternalContact) :=
  cs.foldl (addByKey key) []

/-- `group_contacts_by_email`. -/
def group_contacts_by_email (cs : List ExternalContact) :
    List (String × List ExternalContact) :=
  groupByKey (fun c => c.email) cs

/-- Python's `max(xs, key=lambda c: c.tickets)` on the nonempty list
`x :: xs`: keeps the current best on ties, so the first maximum wins. -/
def pyMaxTickets (x : ExternalContact) (xs : List ExternalContact) : ExternalContact :=
  xs.foldl (fun best c => if c.tickets > best.tickets then c else best) x

/-- The Stage-B sort key `(c.updated_by_bi_service(), c.tickets)`, with the
boolean as 1/0 so Python tuple comparison becomes the lexicographic order. -/
def biKey (c : ExternalContact) : Nat × Int :=
  ((if updated_by_bi_service c then 1 else 0), c.tickets)

/-- Non-strict descending comparison of Stage-B keys (lexicographic). -/
def keyGe (a b : Nat × Int) : Bool :=
  a.1 > b.1 || (a.1 == b.1 && a.2 ≥ b.2)

/-- Insert into a descending-sorted list, before any equal key: combined
with `sortByKeyDesc` this reproduces Python's stable
`sorted(..., key=biKey, reverse=True)`. -/
def insertByKeyDesc (x : ExternalContact) :
    List ExternalContact → List ExternalContact
  | [] => [x]
  | y :: ys =>
    if keyGe (biKey x) (biKey y) then x :: y :: ys else y :: insertByKeyDesc x ys

/-- Stable descending sort by the Stage-B key. -/
def sortByKeyDesc : List ExternalContact → List ExternalContact
  | [] => []
  | x :: xs => insertByKeyDesc x (sortByKeyDesc xs)

/-- Stages A and B of `choose_primary_contact` on the nonempty account
sub-group `x :: xs`: the sole CXP record if there is exactly one, the top of
the stable descending `biKey` sort among CXP records if there are several,
else the first ticket-count maximum of the whole sub-group. -/
def stageAB (x : ExternalContact) (xs : List ExternalContact) : ExternalContact :=
  match (x :: xs).filter has_cxp_uid with
  | [] => pyMaxTickets x xs
  | [c] => c
  | c1 :: c2 :: cs => (sortByKeyDesc (c1 :: c2 :: cs)).headD x

/-- Stage-C trigger: some record's `type` contains `upwork` case-insensitively. -/
def upworkCond (l : List ExternalContact) : Bool :=
  l.any (fun c => containsSub (pyLower c.type) "upwork")

/-- The Stage-C candidates: records whose `external_ref` contains `upwork`
case-insensitively, in sub-group order. -/
def upworkSpecific (l : List ExternalContact) : List ExternalContact :=
  l.filter (fun c => containsSub (pyLower c.external_ref) "upwork")

/-- Stage-D trigger: some record's account name contains
`velocity global - other` case-insensitively. -/
def velocityCond (l : List ExternalContact) : Bool :=
  l.any (fun c => containsSub (pyLower c.devrev_account_name) "velocity global - other")

/-- The Stage-D candidates: records with `external_ref == user_id`, in
sub-group order. -/
def realAccounts (l : List ExternalContact) : List ExternalContact :=
  l.filter (fun c => c.external_ref == c.user_id)

/-- Stages A, B and C on the nonempty account sub-group `x :: xs`: the
Stage-A/B result, overridden by the first Upwork-specific record when the
Upwork condition fires and such a record exists. -/
def stageABC (x : ExternalContact) (xs : List ExternalContact) : ExternalContact :=
  if upworkCond (x :: xs) then
    match upworkSpecific (x :: xs) with
    | [] => stageAB x xs
    | s :: _ => s
  else stageAB x xs

/-- The full selection cascade of `choose_primary_contact` on one nonempty
account sub-group `x :: xs`: Stages A/B/C, overridden by the first
`external_ref == user_id` record when the Velocity-Global-Other condition
fires and such a record exists. -/
def selectPrimary (x : ExternalContact) (xs : List ExternalContact) : ExternalContact :=
  if velocityCond (x :: xs) then
    match realAccounts (x :: xs) with
    | [] => stageABC x xs
    | r :: _ => r
  else stageABC x xs

/-- The pairs `choose_primary_contact` emits for one account sub-group:
one `(primary, duplicate)` pair per record that is not identical (`oid`)
to the chosen primary, in sub-group order. -/
def subgroupPairs (x : ExternalContact) (xs : List ExternalContact) :
    List (ExternalContact × ExternalContact) :=
  let p := selectPrimary x xs
  ((x :: xs).filter (fun c => c.oid != p.oid)).map (fun d => (p, d))

/-- One iteration of the account loop in `choose_primary_contact`: a
sub-group with fewer than two records is skipped (the running `primary`
is left as it was); otherwise the primary is recomputed and the
sub-group's pairs are appended. -/
def chooseStep (st : Option ExternalContact × List (ExternalContact × ExternalContact))
    (kv : String × List ExternalContact) :
    Option ExternalContact × List (ExternalContact × ExternalContact) :=
  match kv.2 with
  | [] => st
  | [_] => st
  | x :: y :: rest =>
    (some (selectPrimary x (y :: rest)), st.2 ++ subgroupPairs x (y :: rest))

/-- `choose_primary_contact`: `(None, [])` for groups smaller than two,
else the account partition folded through the per-sub-group selection. -/
def choose_primary_contact (group : List ExternalContact) :
    Option ExternalContact × List (ExternalContact × ExternalContact) :=
  if group.length < 2 then (none, [])
  else (groupByKey (fun c => c.devrev_account_id) group).foldl chooseStep (none, [])

/-- The merge-plan construction loop of `dedupe_contacts`: every email
group of size at least two contributes its `choose_primary_contact`
pairs, concatenated in group order. -/
def build_merge_plan (contacts : List ExternalContact) :
    List (ExternalContact × ExternalContact) :=
  (group_contacts_by_email contacts).foldl
    (fun plan g => if g.2.length < 2 then plan else plan ++ (choose_primary_contact g.2).2) []

/-! ### Sample records used to instantiate the theorems -/

/-- Build a contact record with the descriptive fields blanked, as the
loader would from a row carrying only the decision-relevant columns. -/
def sample (oid : Nat) (em eref uid ty accid aname bi : String) (tk : Int) :
    ExternalContact :=
  { email := em, external_ref := eref, modified_by := "", user_id := uid,
    type := ty, display_id := "", devrev_account_id := accid,
    devrev_account_name := aname, updated_at := "", cxp_user_id := "",
    updated_by_bi := bi, linked_to_acc := "", tickets := tk, action := "",
    strategy := "", oid := oid }

/-- Sole CXP-UID record, few tickets (spec scenario 1, R1). -/
def r1 : ExternalContact := sample 0 "a@b.c" "user_123" "u1" "" "ACC" "" "" 5

/-- Non-CXP record with more tickets (spec scenario 1, R2). -/
def r2 : ExternalContact := sample 1 "a@b.c" "abc" "u2" "" "ACC" "" "" 9

/-- CXP record updated by the BI service, few tickets (scenario 2, R1). -/
def b1 : ExternalContact := sample 0 "a@b.c" "user_1" "u1" "" "ACC" "" "TRUE" 2

/-- CXP record not updated by the BI service, many tickets (scenario 2, R2). -/
def b2 : ExternalContact := sample 1 "a@b.c" "user_2" "u2" "" "ACC" "" "FALSE" 50

/-- No CXP UID, 3 tickets. -/
def m1 : ExternalContact := sample 0 "a@b.c" "e1" "u1" "" "ACC" "" "" 3

/-- No CXP UID, 7 tickets, first of a two-way tie. -/
def m2 : ExternalContact := sample 1 "a@b.c" "e2" "u2" "" "ACC" "" "" 7

/-- No CXP UID, 7 tickets, second of a two-way tie. -/
def m3 : ExternalContact := sample 2 "a@b.c" "e3" "u3" "" "ACC" "" "" 7

/-- Upwork-typed record whose external ref does not mention upwork. -/
def q1 : ExternalContact := sample 0 "a@b.c" "generic_acct" "x1" "Upwork" "ACC" "" "" 0

/-- Upwork-typed record whose external ref mentions upwork. -/
def q2 : ExternalContact :=
  sample 1 "a@b.c" "upwork_jsmith" "x2" "Upwork Specific" "ACC" "" "" 0

/-- Velocity-Global-Other record with `external_ref ≠ user_id` (scenario 4, R1). -/
def v1 : ExternalContact := sample 0 "a@b.c" "x" "y" "" "ACC" "Velocity Global - OTHER" "" 0

/-- Velocity-Global-Other record with `external_ref = user_id` (scenario 4, R2). -/
def v2 : ExternalContact := sample 1 "a@b.c" "z" "z" "" "ACC" "Velocity Global - OTHER" "" 0

/-- Same email as `a2`, different account (scenario 5). -/
def a1 : ExternalContact := sample 0 "a@b.c" "e1" "u1" "" "AccA" "" "" 1

/-- Same email as `a1`, different account (scenario 5). -/
def a2 : ExternalContact := sample 1 "a@b.c" "e2" "u2" "" "AccB" "" "" 1

/-- First of two field-identical records from distinct input rows. -/
def w1 : ExternalContact := sample 0 "dup@x.co" "user_9" "u9" "" "ACC" "" "" 1

/-- Second of two field-identical records from distinct input rows. -/
def w2 : ExternalContact := sample 1 "dup@x.co" "user_9" "u9" "" "ACC" "" "" 1

/-- A CSV row with no Email column at all. -/
def rowNoEmail : Row := ⟨[("User ID", "u1")]⟩

/-- A CSV row whose Tickets cell holds a negative number. -/
def rowNeg : Row := ⟨[("Email", "a@b.c"), ("Tickets", "-5")]⟩

/-- An ordinary CSV row. -/
def rowOk : Row := ⟨[("Email", "A@B.c"), ("Tickets", "2")]⟩

/-- A CSV row with no Tickets column. -/
def rowNoTickets : Row := ⟨[("Email", "a@b.c")]⟩

/-- The record the loader builds from `rowOk`. -/
def c8c : ExternalContact :=
  ⟨"a@b.c", "", "", "", "", "", "", "", "", "", "", "", 2, "", "", 0⟩

/-- The record the loader builds from `rowNoTickets`. -/
def c9c : ExternalContact :=
  ⟨"a@b.c", "", "", "", "", "", "", "", "", "", "", "", 0, "", "", 0⟩

/-! ### Properties of the Stage-B key order -/

theorem keyGe_refl (a : Nat × Int) : keyGe a a = true := by
  simp [keyGe]

theorem keyGe_total (a b : Nat × Int) : keyGe a b = true ∨ keyGe b a = true := by
  simp only [keyGe, Bool.or_eq_true, Bool.and_eq_true, decide_eq_true_eq, beq_iff_eq]
  omega

theorem keyGe_trans (a b c : Nat × Int) (hab : keyGe a b = true) (hbc : keyGe b c = true) :
    keyGe a c = true := by
  simp only [keyGe, Bool.or_eq_true, Bool.and_eq_true, decide_eq_true_eq, beq_iff_eq] at *
  omega

/-! ### Properties of `pyMaxTickets` -/

theorem pyMaxTickets_cons (x y : ExternalContact) (ys : List ExternalContact) :
    pyMaxTickets x (y :: ys) = pyMaxTickets (if y.tickets > x.tickets then y else x) ys := rfl

/-- `pyMaxTickets` picks an element whose ticket count dominates the whole
list and which is preceded only by strictly smaller ticket counts: the
first maximum, as Python's `max` with a key behaves. -/
theorem pyMaxTickets_spec (xs : List ExternalContact) (x : ExternalContact) :
    ∃ l1 l2, x :: xs = l1 ++ pyMaxTickets x xs :: l2 ∧
      (∀ c ∈ l1, c.tickets < (pyMaxTickets x xs).tickets) ∧
      (∀ c ∈ x :: xs, c.tickets ≤ (pyMaxTickets x xs).tickets) := by
  induction xs generalizing x with
  | nil =>
    refine ⟨[], [], rfl, by simp, ?_⟩
    intro c hc
    rw [List.mem_singleton] at hc
    subst hc
    exact le_refl _
  | cons y ys ih =>
    rw [pyMaxTickets_cons]
    by_cases h : y.tickets > x.tickets
    · rw [if_pos h]
      obtain ⟨l1, l2, heq, hlt, hle⟩ := ih y
      have hy : y.tickets ≤ (pyMaxTickets y ys).tickets := hle y (List.mem_cons_self y ys)
      refine ⟨x :: l1, l2, ?_, ?_, ?_⟩
      · rw [List.cons_append, ← heq]
      · intro c hc
        rcases List.mem_cons.mp hc with rfl | hc
        · omega
        · exact hlt c hc
      · intro c hc
        rcases List.mem_cons.mp hc with rfl | hc
        · omega
        · exact hle c hc
    · rw [if_neg h]
      obtain ⟨l1, l2, heq, hlt, hle⟩ := ih x
      have hx : x.tickets ≤ (pyMaxTickets x ys).tickets := hle x (List.mem_cons_self x ys)
      cases l1 with
      | nil =>
        rw [List.nil_append] at heq
        injection heq with h1 h2
        refine ⟨[], y :: l2, ?_, by simp, ?_⟩
        · rw [List.nil_append, ← h1, ← h2]
        · intro c hc
          rcases List.mem_cons.mp hc with rfl | hc
          · exact hx
          · rcases List.mem_cons.mp hc with rfl | hc
            · omega
            · exact hle c (List.mem_cons_of_mem x hc)
      | cons a t =>
        rw [List.cons_append] at heq
        injection heq with h1 h2
        subst h1
        refine ⟨x :: y :: t, l2, ?_, ?_, ?_⟩
        · exact congrArg (fun z => x :: y :: z) h2
        · have hxlt : x.tickets < (pyMaxTickets x ys).tickets :=
            hlt x (List.mem_cons_self x t)
          intro c hc
          rcases List.mem_cons.mp hc with rfl | hc
          · exact hxlt
          · rcases List.mem_cons.mp hc with rfl | hc
            · omega
            · exact hlt c (List.mem_cons_of_mem x hc)
        · intro c hc
          rcases List.mem_cons.mp hc with rfl | hc
          · exact hx
          · rcases List.mem_cons.mp hc with rfl | hc
            · omega
            · exact hle c (List.mem_cons_of_mem x hc)

theorem pyMaxTickets_mem (x : ExternalContact) (xs : List ExternalContact) :
    pyMaxTickets x xs ∈ x :: xs := by
  obtain ⟨l1, l2, heq, _, _⟩ := pyMaxTickets_spec xs x
  rw [heq]
  exact List.mem_append.mpr (Or.inr (List.mem_cons_self _ _))

/-! ### Properties of the stable descending sort -/

theorem insertByKeyDesc_ne_nil (x : ExternalContact) (l : List ExternalContact) :
    insertByKeyDesc x l ≠ [] := by
  cases l with
  | nil => simp [insertByKeyDesc]
  | cons y ys =>
    rw [insertByKeyDesc]
    split <;> simp

theorem mem_insertByKeyDesc {a x : ExternalContact} {l : List ExternalContact} :
    a ∈ insertByKeyDesc x l ↔ a = x ∨ a ∈ l := by
  induction l with
  | nil => simp [insertByKeyDesc]
  | cons y ys ih =>
    rw [insertByKeyDesc]
    split
    · simp [List.mem_cons]
    · rw [List.mem_cons, ih, List.mem_cons]
      tauto

theorem mem_sortByKeyDesc {a : ExternalContact} {l : List ExternalContact} :
    a ∈ sortByKeyDesc l ↔ a ∈ l := by
  induction l with
  | nil => simp [sortByKeyDesc]
  | cons x xs ih =>
    rw [sortByKeyDesc, mem_insertByKeyDesc, ih, List.mem_cons]

theorem sortByKeyDesc_eq_nil {l : List ExternalContact} :
    sortByKeyDesc l = [] ↔ l = [] := by
  cases l with
  | nil => simp [sortByKeyDesc]
  | cons x xs =>
    rw [sortByKeyDesc]
    simp only [iff_false_intro (List.cons_ne_nil x xs), iff_false]
    exact insertByKeyDesc_ne_nil x _

/-- The head of the stable descending sort dominates every list element
in the Stage-B key order. -/
theorem sort_head_max (l : List ExternalContact) (c : ExternalContact)
    (cs : List ExternalContact) (h : sortByKeyDesc l = c :: cs) :
    ∀ a ∈ l, keyGe (biKey c) (biKey a) = true := by
  induction l generalizing c cs with
  | nil => simp [sortByKeyDesc] at h
  | cons x xs ih =>
    rw [sortByKeyDesc] at h
    intro a ha
    cases hs : sortByKeyDesc xs with
    | nil =>
      have hxs : xs = [] := sortByKeyDesc_eq_nil.mp hs
      subst hxs
      rw [hs, insertByKeyDesc] at h
      injection h with h1 _
      subst h1
      rw [List.mem_singleton] at ha
      subst ha
      exact keyGe_refl _
    | cons y ys =>
      rw [hs, insertByKeyDesc] at h
      by_cases hk : keyGe (biKey x) (biKey y) = true
      · rw [if_pos hk] at h
        injection h with h1 _
        subst h1
        rcases List.mem_cons.mp ha with rfl | ha2
        · exact keyGe_refl _
        · exact keyGe_trans _ _ _ hk (ih y ys hs a ha2)
      · rw [if_neg hk] at h
        injection h with h1 _
        subst h1
        rcases List.mem_cons.mp ha with rfl | ha2
        · rcases keyGe_total (biKey a) (biKey y) with ht | ht
          · exact absurd ht hk
          · exact ht
        · exact ih y ys hs a ha2

/-! ### Unfolding equations and membership for the cascade stages -/

theorem stageAB_of_no_cxp {x : ExternalContact} {xs : List ExternalContact}
    (h : (x :: xs).filter has_cxp_uid = []) :
    stageAB x xs = pyMaxTickets x xs := by
  unfold stageAB
  rw [h]

theorem stageAB_of_one_cxp {x c : ExternalContact} {xs : List ExternalContact}
    (h : (x :: xs).filter has_cxp_uid = [c]) :
    stageAB x xs = c := by
  unfold stageAB
  rw [h]

theorem stageAB_of_many_cxp {x c1 c2 : ExternalContact}
    {xs cs : List ExternalContact}
    (h : (x :: xs).filter has_cxp_uid = c1 :: c2 :: cs) :
    stageAB x xs = (sortByKeyDesc (c1 :: c2 :: cs)).headD x := by
  unfold stageAB
  rw [h]

theorem stageAB_mem (x : ExternalContact) (xs : List ExternalContact) :
    stageAB x xs ∈ x :: xs := by
  cases hf : (x :: xs).filter has_cxp_uid with
  | nil =>
    rw [stageAB_of_no_cxp hf]
    exact pyMaxTickets_mem x xs
  | cons c1 cs1 =>
    cases cs1 with
    | nil =>
      rw [stageAB_of_one_cxp hf]
      exact List.mem_of_mem_filter (hf ▸ List.mem_cons_self c1 [])
    | cons c2 cs2 =>
      rw [stageAB_of_many_cxp hf]
      cases hs : sortByKeyDesc (c1 :: c2 :: cs2) with
      | nil => exact absurd (sortByKeyDesc_eq_nil.mp hs) (List.cons_ne_nil c1 _)
      | cons b bs =>
        rw [List.headD_cons]
        have hb : b ∈ c1 :: c2 :: cs2 := mem_sortByKeyDesc.mp (hs ▸ List.mem_cons_self b bs)
        exact List.mem_of_mem_filter (hf ▸ hb)

theorem stageABC_of_upwork {x s : ExternalContact} {xs ss : List ExternalContact}
    (hu : upworkCond (x :: xs) = true) (hs : upworkSpecific (x :: xs) = s :: ss) :
    stageABC x xs = s := by
  unfold stageABC
  rw [hu, hs]
  rfl

theorem stageABC_of_no_upwork {x : ExternalContact} {xs : List ExternalContact}
    (h : upworkCond (x :: xs) = false ∨ upworkSpecific (x :: xs) = []) :
    stageABC x xs = stageAB x xs := by
  unfold stageABC
  rcases h with h | h
  · rw [h]
    rfl
  · rw [h]
    split <;> rfl

theorem stageABC_mem (x : ExternalContact) (xs : List ExternalContact) :
    stageABC x xs ∈ x :: xs := by
  cases hu : upworkCond (x :: xs) with
  | false =>
    rw [stageABC_of_no_upwork (Or.inl hu)]
    exact stageAB_mem x xs
  | true =>
    cases hs : upworkSpecific (x :: xs) with
    | nil =>
      rw [stageABC_of_no_upwork (Or.inr hs)]
      exact stageAB_mem x xs
    | cons s ss =>
      rw [stageABC_of_upwork hu hs]
      exact List.mem_of_mem_filter (hs ▸ List.mem_cons_self s ss)

theorem selectPrimary_of_velocity {x r : ExternalContact} {xs rs : List ExternalContact}
    (hv : velocityCond (x :: xs) = true) (hr : realAccounts (x :: xs) = r :: rs) :
    selectPrimary x xs = r := by
  unfold selectPrimary
  rw [hv, hr]
  rfl

theorem selectPrimary_of_no_velocity {x : ExternalContact} {xs : List ExternalContact}
    (h : velocityCond (x :: xs) = false ∨ realAccounts (x :: xs) = []) :
    selectPrimary x xs = stageABC x xs := by
  unfold selectPrimary
  rcases h with h | h
  · rw [h]
    rfl
  · rw [h]
    split <;> rfl

theorem selectPrimary_mem (x : ExternalContact) (xs : List ExternalContact) :
    selectPrimary x xs ∈ x :: xs := by
  cases hv : velocityCond (x :: xs) with
  | false =>
    rw [selectPrimary_of_no_velocity (Or.inl hv)]
    exact stageABC_mem x xs
  | true =>
    cases hr : realAccounts (x :: xs) with
    | nil =>
      rw [selectPrimary_of_no_velocity (Or.inr hr)]
      exact stageABC_mem x xs
    | cons r rs =>
      rw [selectPrimary_of_velocity hv hr]
      exact List.mem_of_mem_filter (hr ▸ List.mem_cons_self r rs)

/-! ### Soundness of the ordered grouping -/

theorem addByKey_sound (key : ExternalContact → String) (S : List ExternalContact)
    (c : ExternalContact) (hc : c ∈ S) :
    ∀ gs, (∀ kl ∈ gs, ∀ d ∈ kl.2, key d = kl.1 ∧ d ∈ S) →
      ∀ kl ∈ addByKey key gs c, ∀ d ∈ kl.2, key d = kl.1 ∧ d ∈ S := by
  intro gs
  induction gs with
  | nil =>
    intro _ kl hkl d hd
    rw [addByKey, List.mem_singleton] at hkl
    subst hkl
    rw [List.mem_singleton] at hd
    subst hd
    exact ⟨rfl, hc⟩
  | cons p rest ih =>
    intro hgs kl hkl d hd
    obtain ⟨k, l⟩ := p
    rw [addByKey] at hkl
    by_cases hk : (k == key c) = true
    · rw [if_pos hk] at hkl
      rcases List.mem_cons.mp hkl with rfl | hkl2
      · rcases List.mem_append.mp hd with hdl | hdc
        · exact hgs (k, l) (List.mem_cons_self _ _) d hdl
        · rw [List.mem_singleton] at hdc
          subst hdc
          exact ⟨(beq_iff_eq.mp hk).symm, hc⟩
      · exact hgs kl (List.mem_cons_of_mem _ hkl2) d hd
    · rw [if_neg hk] at hkl
      rcases List.mem_cons.mp hkl with rfl | hkl2
      · exact hgs (k, l) (List.mem_cons_self _ _) d hd
      · exact ih (fun kl2 h2 => hgs kl2 (List.mem_cons_of_mem _ h2)) kl hkl2 d hd

theorem groupByKey_sound_aux (key : ExternalContact → String) (S : List ExternalContact) :
    ∀ (cs : List ExternalContact) gs,
      (∀ kl ∈ gs, ∀ d ∈ kl.2, key d = kl.1 ∧ d ∈ S) →
      (∀ c ∈ cs, c ∈ S) →
      ∀ kl ∈ cs.foldl (addByKey key) gs, ∀ d ∈ kl.2, key d = kl.1 ∧ d ∈ S := by
  intro cs
  induction cs with
  | nil =>
    intro gs hgs _ kl hkl
    exact hgs kl hkl
  | cons c cs ih =>
    intro gs hgs hcs
    rw [List.foldl_cons]
    exact ih _ (addByKey_sound key S c (hcs c (List.mem_cons_self _ _)) gs hgs)
      (fun d hd => hcs d (List.mem_cons_of_mem _ hd))

/-- Every record placed in a group by `groupByKey` has that group's key and
comes from the input list. -/
theorem groupByKey_sound (key : ExternalContact → String) (cs : List ExternalContact) :
    ∀ kl ∈ groupByKey key cs, ∀ d ∈ kl.2, key d = kl.1 ∧ d ∈ cs :=
  groupByKey_sound_aux key cs cs [] (by simp) (fun _ h => h)

/-! ### Where emitted pairs come from -/

theorem subgroupPairs_spec {x : ExternalContact} {xs : List ExternalContact}
    {pr : ExternalContact × ExternalContact} (h : pr ∈ subgroupPairs x xs) :
    pr.1 = selectPrimary x xs ∧ pr.2 ∈ x :: xs ∧ pr.2.oid ≠ pr.1.oid := by
  simp only [subgroupPairs] at h
  obtain ⟨d, hd, heq⟩ := List.mem_map.mp h
  obtain ⟨hdmem, hdoid⟩ := List.mem_filter.mp hd
  subst heq
  exact ⟨rfl, hdmem, bne_iff_ne.mp hdoid⟩

theorem chooseStep_skip (st : Option ExternalContact × List (ExternalContact × ExternalContact))
    (kv : String × List ExternalContact)
    (h : kv.2 = [] ∨ ∃ z, kv.2 = [z]) : chooseStep st kv = st := by
  unfold chooseStep
  rcases h with h | ⟨z, h⟩ <;> rw [h]

theorem chooseStep_run (st : Option ExternalContact × List (ExternalContact × ExternalContact))
    (kv : String × List ExternalContact) (x y : ExternalContact)
    (rest : List ExternalContact) (h : kv.2 = x :: y :: rest) :
    chooseStep st kv =
      (some (selectPrimary x (y :: rest)), st.2 ++ subgroupPairs x (y :: rest)) := by
  unfold chooseStep
  rw [h]

/-- Any pair produced by the account loop comes from one of the account
sub-groups of size at least two, as that sub-group's `subgroupPairs`. -/
theorem foldl_chooseStep_pairs :
    ∀ (accs : List (String × List ExternalContact))
      (st : Option ExternalContact × List (ExternalContact × ExternalContact))
      (pr : ExternalContact × ExternalContact),
      pr ∈ (accs.foldl chooseStep st).2 →
      pr ∈ st.2 ∨ ∃ kv ∈ accs, ∃ x y rest, kv.2 = x :: y :: rest ∧
        pr ∈ subgroupPairs x (y :: rest) := by
  intro accs
  induction accs with
  | nil =>
    intro st pr h
    exact Or.inl h
  | cons kv accs ih =>
    intro st pr h
    rw [List.foldl_cons] at h
    rcases ih (chooseStep st kv) pr h with hst | ⟨kv2, hkv2, hx⟩
    · rcases hkv : kv.2 with _ | ⟨x, _ | ⟨y, rest⟩⟩
      · rw [chooseStep_skip st kv (Or.inl hkv)] at hst
        exact Or.inl hst
      · rw [chooseStep_skip st kv (Or.inr ⟨x, hkv⟩)] at hst
        exact Or.inl hst
      · rw [chooseStep_run st kv x y rest hkv] at hst
        rcases List.mem_append.mp hst with hst | hst
        · exact Or.inl hst
        · exact Or.inr ⟨kv, List.mem_cons_self _ _, x, y, rest, hkv, hst⟩
    · exact Or.inr ⟨kv2, List.mem_cons_of_mem _ hkv2, hx⟩

/-- Any pair returned by `choose_primary_contact` comes from an account
sub-group of the group, all of whose members share that account id and
belong to the group. -/
theorem choose_primary_contact_pairs {group : List ExternalContact}
    {pr : ExternalContact × ExternalContact}
    (h : pr ∈ (choose_primary_contact group).2) :
    ∃ k sub, (∀ d ∈ sub, d.devrev_account_id = k ∧ d ∈ group) ∧
      ∃ x y rest, sub = x :: y :: rest ∧ pr ∈ subgroupPairs x (y :: rest) := by
  unfold choose_primary_contact at h
  by_cases hlen : group.length < 2
  · rw [if_pos hlen] at h
    cases h
  · rw [if_neg hlen] at h
    rcases foldl_chooseStep_pairs _ _ _ h with hnil | ⟨kv, hkv, x, y, rest, hsub, hpr⟩
    · cases hnil
    · exact ⟨kv.1, kv.2,
        groupByKey_sound (fun c => c.devrev_account_id) group kv hkv,
        x, y, rest, hsub, hpr⟩

/-- Any pair in the merge plan comes from `choose_primary_contact` run on
one of the email groups. -/
theorem build_merge_plan_mem {cs : List ExternalContact}
    {pr : ExternalContact × ExternalContact} (h : pr ∈ build_merge_plan cs) :
    ∃ g ∈ group_contacts_by_email cs, pr ∈ (choose_primary_contact g.2).2 := by
  unfold build_merge_plan at h
  suffices haux : ∀ (gs : List (String × List ExternalContact))
      (plan : List (ExternalContact × ExternalContact)),
      pr ∈ gs.foldl
        (fun plan g => if g.2.length < 2 then plan else plan ++ (choose_primary_contact g.2).2)
        plan →
      pr ∈ plan ∨ ∃ g ∈ gs, pr ∈ (choose_primary_contact g.2).2 by
    rcases haux (group_contacts_by_email cs) [] h with hnil | hg
    · cases hnil
    · exact hg
  intro gs
  induction gs with
  | nil =>
    intro plan hp
    exact Or.inl hp
  | cons g gs ih =>
    intro plan hp
    rw [List.foldl_cons] at hp
    by_cases h2 : g.2.length < 2
    · rw [if_pos h2] at hp
      rcases ih plan hp with hpl | ⟨g2, hg2, hx⟩
      · exact Or.inl hpl
      · exact Or.inr ⟨g2, List.mem_cons_of_mem _ hg2, hx⟩
    · rw [if_neg h2] at hp
      rcases ih _ hp with hpl | ⟨g2, hg2, hx⟩
      · rcases List.mem_append.mp hpl with hpl | hpl
        · exact Or.inl hpl
        · exact Or.inr ⟨g, List.mem_cons_self _ _, hpl⟩
      · exact Or.inr ⟨g2, List.mem_cons_of_mem _ hg2, hx⟩

/-! ### Counting duplicates -/

/-- Removing exactly the record identical to `p` from a list of records
with pairwise distinct identity tags drops exactly one element. -/
theorem length_filter_ne_oid {l : List ExternalContact} {p : ExternalContact}
    (hp : p ∈ l) (hnd : (l.map ExternalContact.oid).Nodup) :
    (l.filter (fun c => c.oid != p.oid)).length = l.length - 1 := by
  induction l with
  | nil => cases hp
  | cons a t ih =>
    rw [List.map_cons, List.nodup_cons] at hnd
    obtain ⟨hna, hndt⟩ := hnd
    rcases List.mem_cons.mp hp with rfl | hpt
    · have hself : (p.oid != p.oid) = false := by simp
      have hkeep : t.filter (fun c => c.oid != p.oid) = t := by
        rw [List.filter_eq_self]
        intro c hc
        rw [bne_iff_ne]
        intro hco
        exact hna (hco ▸ List.mem_map_of_mem _ hc)
      rw [List.filter_cons, hself]
      simp only [Bool.false_eq_true, if_false, hkeep, List.length_cons,
        Nat.add_sub_cancel]
    · have hao : (a.oid != p.oid) = true := by
        rw [bne_iff_ne]
        intro hco
        exact hna (hco ▸ List.mem_map_of_mem _ hpt)
      rw [List.filter_cons, hao]
      simp only [if_true]
      rw [List.length_cons, List.length_cons, ih hpt hndt]
      have h1 : 1 ≤ t.length := List.length_pos.mpr (List.ne_nil_of_mem hpt)
      omega

/-! ### Loader lemmas -/

theorem mkContact_spec {oid : Nat} {row : Row} {c : ExternalContact}
    (h : mkContact oid row = some c) :
    c.email = pyLower (pyStrip (row.get "Email" "")) ∧
    parseInt? (pyStrip (row.get "Tickets" "0")) = some c.tickets := by
  unfold mkContact at h
  cases hp : parseInt? (pyStrip (row.get "Tickets" "0")) with
  | none =>
    rw [hp] at h
    cases h
  | some t =>
    rw [hp] at h
    injection h with h1
    subst h1
    exact ⟨rfl, rfl⟩

/-- A string of plain digits (no sign) parses to a non-negative integer. -/
theorem parseInt?_digits_nonneg {s : String} {k : Int}
    (hp : parseInt? s = some k) (hall : s.toList.all Char.isDigit = true) :
    0 ≤ k := by
  unfold parseInt? at hp
  split at hp
  · cases hp
  · rename_i c cs heq
    rw [heq, List.all_cons, Bool.and_eq_true] at hall
    obtain ⟨hc, -⟩ := hall
    by_cases h1 : c = '-'
    · subst h1
      exact absurd hc (by decide)
    · rw [if_neg h1] at hp
      by_cases h2 : c = '+'
      · subst h2
        exact absurd hc (by decide)
      · rw [if_neg h2] at hp
        rcases hq : parseDigits? (c :: cs) with _ | n
        · rw [hq] at hp
          cases hp
        · rw [hq, Option.map_some'] at hp
          injection hp with hk
          rw [← hk]
          exact Int.natCast_nonneg n

theorem loadAux_email_filtered :
    ∀ (rows : List Row) (oid : Nat), ∀ c ∈ loadAux oid rows,
      containsSub c.email "test@" = false ∧ containsSub c.email "vg@" = false := by
  intro rows
  induction rows with
  | nil =>
    intro oid c hc
    cases hc
  | cons r rs ih =>
    intro oid c hc
    simp only [loadAux] at hc
    by_cases hg : (containsSub (pyLower (pyStrip (r.get "Email" ""))) "test@" ||
        containsSub (pyLower (pyStrip (r.get "Email" ""))) "vg@") = true
    · rw [if_pos hg] at hc
      exact ih (oid + 1) c hc
    · rw [if_neg hg] at hc
      simp only [Bool.or_eq_true, not_or, Bool.not_eq_true] at hg
      obtain ⟨hg1, hg2⟩ := hg
      cases hmk : mkContact oid r with
      | none =>
        rw [hmk] at hc
        exact ih (oid + 1) c hc
      | some c0 =>
        rw [hmk] at hc
        rcases List.mem_cons.mp hc with rfl | hc2
        · obtain ⟨he, -⟩ := mkContact_spec hmk
          rw [he]
          exact ⟨hg1, hg2⟩
        · exact ih (oid + 1) c hc2

/-! ### The claims -/

/-- Claim C1: for an account sub-group of size at least two whose records have
pairwise distinct identities, the engine selects exactly one primary, a member
of the sub-group; every emitted pair carries that primary on the left; the
emitted duplicates are exactly the non-primary members, each exactly once; and
the number of pairs is the sub-group size minus one. -/
theorem claimC1_subgroup_pairs (x : ExternalContact) (xs : List ExternalContact)
    (hnd : ((x :: xs).map ExternalContact.oid).Nodup)
    (hlen : 2 ≤ (x :: xs).length) :
    selectPrimary x xs ∈ x :: xs ∧
    (∀ pr ∈ subgroupPairs x xs, pr.1 = selectPrimary x xs) ∧
    (subgroupPairs x xs).map Prod.snd =
      (x :: xs).filter (fun c => c.oid != (selectPrimary x xs).oid) ∧
    ((subgroupPairs x xs).map Prod.snd).Nodup ∧
    (subgroupPairs x xs).length = (x :: xs).length - 1 := by
  have hmem := selectPrimary_mem x xs
  have hsnd : (subgroupPairs x xs).map Prod.snd =
      (x :: xs).filter (fun c => c.oid != (selectPrimary x xs).oid) := by
    simp only [subgroupPairs, List.map_map]
    rw [show (Prod.snd ∘ fun d => (selectPrimary x xs, d)) = id from rfl, List.map_id]
  refine ⟨hmem, ?_, hsnd, ?_, ?_⟩
  · intro pr hpr
    exact (subgroupPairs_spec hpr).1
  · rw [hsnd]
    exact List.Nodup.filter _ (List.Nodup.of_map _ hnd)
  · simp only [subgroupPairs, List.length_map]
    exact length_filter_ne_oid hmem hnd

theorem claimC1_witness : (subgroupPairs r1 [r2]).length = (r1 :: [r2]).length - 1 :=
  (claimC1_subgroup_pairs r1 [r2] (by decide) (by decide)).2.2.2.2

/-- Claim C2: stage override ordering.  When the Velocity-Global-Other
condition fires and an `external_ref == user_id` record exists, the first such
record is primary no matter what Stages A/B/C chose; when the Velocity
override does not fire but the Upwork condition does and a specific record
exists, the first specific record is primary no matter what Stages A/B chose. -/
theorem claimC2_override_ordering (x : ExternalContact) (xs : List ExternalContact) :
    (∀ r rs, velocityCond (x :: xs) = true → realAccounts (x :: xs) = r :: rs →
      selectPrimary x xs = r) ∧
    (∀ s ss, (velocityCond (x :: xs) = false ∨ realAccounts (x :: xs) = []) →
      upworkCond (x :: xs) = true → upworkSpecific (x :: xs) = s :: ss →
      selectPrimary x xs = s) :=
  ⟨fun _ _ hv hr => selectPrimary_of_velocity hv hr,
   fun _ _ hnv hu hs => by
    rw [selectPrimary_of_no_velocity hnv, stageABC_of_upwork hu hs]⟩

theorem claimC2_witness : selectPrimary v1 [v2] = v2 ∧ selectPrimary q1 [q2] = q2 :=
  ⟨(claimC2_override_ordering v1 [v2]).1 v2 [] (by decide) (by decide),
   (claimC2_override_ordering q1 [q2]).2 q2 [] (Or.inl (by decide)) (by decide) (by decide)⟩

/-- Claim C3: in an account sub-group of size at least two with exactly one
CXP-UID record (external ref starting with `user_`), that record is the
Stage-A/B primary, regardless of any ticket counts. -/
theorem claimC3_sole_cxp_primary (x c : ExternalContact) (xs : List ExternalContact)
    (h1 : (x :: xs).filter has_cxp_uid = [c]) (h2 : 2 ≤ (x :: xs).length) :
    stageAB x xs = c :=
  stageAB_of_one_cxp h1

theorem claimC3_witness : stageAB r1 [r2] = r1 :=
  claimC3_sole_cxp_primary r1 r1 [r2] (by decide) (by decide)

/-- Claim C4: with two or more CXP-UID records, the Stage-A/B primary is the
head of the stable descending sort of the CXP records by the composite key
(BI-service flag, ticket count); it is one of the CXP records, its key
dominates every CXP record's key, and in particular it has the BI-service
flag whenever any CXP record does. -/
theorem claimC4_stage_b_sort (x : ExternalContact) (xs : List ExternalContact)
    (hlen2 : 2 ≤ ((x :: xs).filter has_cxp_uid).length) :
    (∃ bs, sortByKeyDesc ((x :: xs).filter has_cxp_uid) = stageAB x xs :: bs) ∧
    stageAB x xs ∈ (x :: xs).filter has_cxp_uid ∧
    (∀ d ∈ (x :: xs).filter has_cxp_uid,
      keyGe (biKey (stageAB x xs)) (biKey d) = true) ∧
    ((∃ d ∈ (x :: xs).filter has_cxp_uid, updated_by_bi_service d = true) →
      updated_by_bi_service (stageAB x xs) = true) := by
  rcases hf : (x :: xs).filter has_cxp_uid with _ | ⟨c1, _ | ⟨c2, cs⟩⟩
  · rw [hf] at hlen2
    simp at hlen2
  · rw [hf] at hlen2
    simp at hlen2
  · have hAB := stageAB_of_many_cxp hf
    cases hs : sortByKeyDesc (c1 :: c2 :: cs) with
    | nil => exact absurd (sortByKeyDesc_eq_nil.mp hs) (List.cons_ne_nil c1 _)
    | cons b bs =>
      rw [hs, List.headD_cons] at hAB
      have hmax : ∀ a ∈ c1 :: c2 :: cs, keyGe (biKey b) (biKey a) = true :=
        sort_head_max _ b bs hs
      have hbmem : b ∈ c1 :: c2 :: cs :=
        mem_sortByKeyDesc.mp (hs ▸ List.mem_cons_self b bs)
      refine ⟨⟨bs, by rw [hAB]⟩, by rw [hAB]; exact hbmem, ?_, ?_⟩
      · intro d hd
        rw [hAB]
        exact hmax d hd
      · rintro ⟨d, hd, hdbi⟩
        rw [hAB]
        have hk := hmax d hd
        by_contra hbbi
        rw [Bool.not_eq_true] at hbbi
        simp [keyGe, biKey, hbbi, hdbi] at hk

theorem claimC4_witness : updated_by_bi_service (stageAB b1 [b2]) = true :=
  (claimC4_stage_b_sort b1 [b2] (by decide)).2.2.2 ⟨b1, by decide, by decide⟩

/-- Claim C5: with no CXP-UID record, the Stage-A/B primary is Python's
`max` by ticket count: it dominates every ticket count in the sub-group
and is preceded only by strictly smaller ticket counts, so ties on the
maximum go to the first-encountered record. -/
theorem claimC5_zero_cxp_fallback (x : ExternalContact) (xs : List ExternalContact)
    (h : (x :: xs).filter has_cxp_uid = []) (hlen : 2 ≤ (x :: xs).length) :
    stageAB x xs = pyMaxTickets x xs ∧
    (∀ c ∈ x :: xs, c.tickets ≤ (stageAB x xs).tickets) ∧
    ∃ l1 l2, x :: xs = l1 ++ stageAB x xs :: l2 ∧
      ∀ c ∈ l1, c.tickets < (stageAB x xs).tickets := by
  have hAB := stageAB_of_no_cxp h
  obtain ⟨l1, l2, heq, hlt, hle⟩ := pyMaxTickets_spec xs x
  rw [hAB]
  exact ⟨rfl, hle, l1, l2, heq, hlt⟩

theorem claimC5_witness : stageAB m1 [m2, m3] = pyMaxTickets m1 [m2, m3] :=
  (claimC5_zero_cxp_fallback m1 [m2, m3] (by decide) (by decide)).1

/-- Claim C6: when some record's type mentions upwork (case-insensitively)
and some record's external ref mentions upwork, the first such record in
sub-group order is the primary, overriding Stage A/B, provided the Stage-D
Velocity override does not fire. -/
theorem claimC6_upwork_override (x s : ExternalContact) (xs ss : List ExternalContact)
    (hu : upworkCond (x :: xs) = true) (hs : upworkSpecific (x :: xs) = s :: ss)
    (hd : velocityCond (x :: xs) = false ∨ realAccounts (x :: xs) = []) :
    selectPrimary x xs = s := by
  rw [selectPrimary_of_no_velocity hd, stageABC_of_upwork hu hs]

theorem claimC6_witness : selectPrimary q1 [q2] = q2 :=
  claimC6_upwork_override q1 q2 [q2] [] (by decide) (by decide) (Or.inl (by decide))

/-- Claim C7: a group smaller than two records yields no primary and no
pairs (not an error), and two records with different account ids yield no
pairs, whatever their emails. -/
theorem claimC7_grouping_skip :
    (∀ group : List ExternalContact, group.length < 2 →
      choose_primary_contact group = (none, [])) ∧
    (∀ c1 c2 : ExternalContact, c1.devrev_account_id ≠ c2.devrev_account_id →
      (choose_primary_contact [c1, c2]).2 = []) := by
  constructor
  · intro g hg
    unfold choose_primary_contact
    rw [if_pos hg]
  · intro c1 c2 h
    have hbeq : (c1.devrev_account_id == c2.devrev_account_id) = false :=
      beq_eq_false_iff_ne.mpr h
    unfold choose_primary_contact
    rw [if_neg (by simp)]
    simp [groupByKey, addByKey, hbeq, chooseStep]

theorem claimC7_witness :
    choose_primary_contact [r1] = (none, []) ∧
    (choose_primary_contact [a1, a2]).2 = [] :=
  ⟨claimC7_grouping_skip.1 [r1] (by decide),
   claimC7_grouping_skip.2 a1 a2 (by decide)⟩

/-- Claim C8, as stated, is false: the loader only filters rows whose
normalized email contains `test@` or `vg@`; a row with a missing (or empty)
Email cell still loads, with an empty email.  Here `rowNoEmail` has no
Email column and its record is loaded with `email = ""`. -/
theorem claimC8_cex : (load_contacts [rowNoEmail]).map (fun c => c.email) = [""] := by
  decide

/-- Claim C8 (amended): no loaded record's normalized email contains
`test@` or `vg@` (the email is lowercased, so the match is
case-insensitive), and no such record appears in any email group; the
email may however be empty. -/
theorem claimC8_loader_filter (rows : List Row) :
    (∀ c ∈ load_contacts rows,
      containsSub c.email "test@" = false ∧ containsSub c.email "vg@" = false) ∧
    (∀ g ∈ group_contacts_by_email (load_contacts rows), ∀ c ∈ g.2,
      containsSub c.email "test@" = false ∧ containsSub c.email "vg@" = false) := by
  refine ⟨loadAux_email_filtered rows 0, ?_⟩
  intro g hg c hc
  have hcl : c ∈ load_contacts rows :=
    (groupByKey_sound (fun c => c.email) (load_contacts rows) g hg c hc).2
  exact loadAux_email_filtered rows 0 c hcl

theorem claimC8_witness :
    containsSub c8c.email "test@" = false ∧ containsSub c8c.email "vg@" = false :=
  (claimC8_loader_filter [rowOk]).1 c8c (by decide)

/-- Claim C9, as stated, is false: `int()` accepts negative numbers, so a
Tickets cell holding `-5` loads with a negative ticket count. -/
theorem claimC9_cex :
    (load_contacts [rowNeg]).all (fun c => decide (0 ≤ c.tickets)) = false := by
  decide

/-- Claim C9 (amended): a loaded record's ticket count is the parsed
integer of the stripped Tickets cell; a missing Tickets column defaults
to zero; and the count is non-negative whenever the stripped cell is a
plain digit string — but a signed negative cell yields a negative count. -/
theorem claimC9_ticket_count (oid : Nat) (row : Row) (c : ExternalContact)
    (h : mkContact oid row = some c) :
    parseInt? (pyStrip (row.get "Tickets" "0")) = some c.tickets ∧
    (row.fields.find? (fun p => p.1 == "Tickets") = none → c.tickets = 0) ∧
    ((pyStrip (row.get "Tickets" "0")).toList.all Char.isDigit = true →
      0 ≤ c.tickets) := by
  obtain ⟨-, hparse⟩ := mkContact_spec h
  refine ⟨hparse, ?_, ?_⟩
  · intro hfind
    have hget : row.get "Tickets" "0" = "0" := by
      unfold Row.get
      rw [hfind]
    rw [hget] at hparse
    have : parseInt? (pyStrip "0") = some 0 := by decide
    rw [this] at hparse
    injection hparse with h0
    exact h0.symm
  · intro hall
    exact parseInt?_digits_nonneg hparse hall

theorem claimC9_witness :
    parseInt? (pyStrip (rowNoTickets.get "Tickets" "0")) = some c9c.tickets :=
  (claimC9_ticket_count 0 rowNoTickets c9c (by decide)).1

/-- Claim C10: every pair in the merge plan relates two records with the
same normalized email and the same account id, and the duplicate is never
identical (by object identity, modelled as `oid`) to the primary — records
with identical field values from distinct input rows remain distinct. -/
theorem claimC10_pair_invariant (cs : List ExternalContact)
    (pr : ExternalContact × ExternalContact) (h : pr ∈ build_merge_plan cs) :
    pr.1.email = pr.2.email ∧
    pr.1.devrev_account_id = pr.2.devrev_account_id ∧
    pr.1.oid ≠ pr.2.oid := by
  obtain ⟨g, hg, hpr⟩ := build_merge_plan_mem h
  obtain ⟨k, sub, hsub, x, y, rest, heq, hp⟩ := choose_primary_contact_pairs hpr
  obtain ⟨h1, h2mem, hoid⟩ := subgroupPairs_spec hp
  have hp1mem : pr.1 ∈ sub := by
    rw [heq, h1]
    exact selectPrimary_mem x (y :: rest)
  have hp2mem : pr.2 ∈ sub := by
    rw [heq]
    exact h2mem
  obtain ⟨hk1, hg1⟩ := hsub pr.1 hp1mem
  obtain ⟨hk2, hg2⟩ := hsub pr.2 hp2mem
  obtain ⟨he1, -⟩ := groupByKey_sound (fun c => c.email) cs g hg pr.1 hg1
  obtain ⟨he2, -⟩ := groupByKey_sound (fun c => c.email) cs g hg pr.2 hg2
  exact ⟨he1.trans he2.symm, hk1.trans hk2.symm, Ne.symm hoid⟩

theorem claimC10_witness :
    ((w1, w2) : ExternalContact × ExternalContact).1.email = (w1, w2).2.email ∧
    ((w1, w2) : ExternalContact × ExternalContact).1.devrev_account_id =
      (w1, w2).2.devrev_account_id ∧
    ((w1, w2) : ExternalContact × ExternalContact).1.oid ≠ (w1, w2).2.oid :=
  claimC10_pair_invariant [w1, w2] (w1, w2) (by decide)

end Dedupe
